import Mathlib

/-!
Shallow embedding of the gaspadel round-scheduling and pairing engine
(`lib/scheduler.ts`) together with proofs about the specified behaviour.

The ambient randomness of the source (`Math.random()`) is modelled as an
explicitly threaded entropy stream `Rng`: every place the source draws from
`Math.random()` the embedding draws the next value of the stream.  The random
tie-break inside the selection sort comparator is modelled as a stable merge
sort applied to a pre-shuffled list, which realises "remaining ties broken
randomly" while keeping the comparator pure.
-/

namespace Gaspadel

/-- Entropy stream: `seq` is the sequence of raw random draws, `pos` the
position of the next draw.  Models the ambient `Math.random()` source. -/
structure Rng where
  seq : Nat → Nat
  pos : Nat := 0

/-- Draw a value in `[0, n)` (for `n > 0`), advancing the stream.
Models `Math.floor(Math.random() * n)`. -/
def randBelow (g : Rng) (n : Nat) : Nat × Rng :=
  (g.seq g.pos % n, ⟨g.seq, g.pos + 1⟩)

/-- Models `Math.random().toString(36).slice(2, 11)`: a fresh identifier
derived from the next random draw. -/
def generateMatchId (g : Rng) : String × Rng :=
  (toString (g.seq g.pos), ⟨g.seq, g.pos + 1⟩)

/-- Modelled from the spec: the store data model (`lib/store.ts` is not under
`src/`; fields are those read by the scheduler, per spec section 3).
`gender` is `"M"`, `"F"` or `""` (null), `status` is `"active"` etc. -/
structure Player where
  id : String
  name : String := ""
  skill : Nat := 3
  gender : String := ""
  status : String := "active"
  gamesPlayed : Nat := 0
  sitOutCount : Nat := 0
  totalPoints : Nat := 0
  wins : Nat := 0
  losses : Nat := 0
deriving DecidableEq, Repr

/-- Modelled from the spec: a match record; `teamA`/`teamB` are the two
`playerIds` lists, `status` is `"upcoming"`, `"in_progress"` or
`"completed"`. -/
structure Match where
  id : String
  court : Nat
  teamA : List String
  teamB : List String
  status : String
  score : Option (Nat × Nat) := none
deriving DecidableEq, Repr

/-- Modelled from the spec: a round of the schedule. -/
structure Round where
  roundNumber : Nat
  «matches» : List Match
  sittingOut : List String
deriving DecidableEq, Repr

/-- Modelled from the spec: the closed set of matching policies the final
scheduler switches over. -/
inductive Algorithm where
  | americano
  | mexicano
  | mix_americano
  | skill_americano
deriving DecidableEq, Repr

/-- Modelled from the spec: the slice of the session configuration consumed by
`generateSchedule`. -/
structure Config where
  courts : Nat
  rounds : Nat
  algorithm : Algorithm
deriving DecidableEq, Repr

/-- Swap the entries at positions `i` and `j` (no-op when out of range). -/
def listSwap {α : Type} (l : List α) (i j : Nat) : List α :=
  match l[i]?, l[j]? with
  | some a, some b => (l.set i b).set j a
  | _, _ => l

/-- The Fisher-Yates loop of `shuffle`: processes indices `i, i-1, ..., 1`,
drawing `j ∈ [0, i]` and swapping positions `i` and `j`. -/
def fisherYates {α : Type} : List α → Rng → Nat → List α × Rng
  | a, g, 0 => (a, g)
  | a, g, k + 1 =>
    let (j, g') := randBelow g (k + 2)
    fisherYates (listSwap a (k + 1) j) g' k

/-- Shuffle array using Fisher-Yates (a fresh list; the source copies). -/
def shuffle {α : Type} (arr : List α) (g : Rng) : List α × Rng :=
  fisherYates arr g (arr.length - 1)

/-- Lexicographic comparison of character lists (the JS `<` on strings
compares code units lexicographically; all ids are generated ASCII, where
this coincides with the code-unit order). -/
def charsLt : List Char → List Char → Bool
  | _, [] => false
  | [], _ :: _ => true
  | c :: cs, d :: ds => if c < d then true else if d < c then false else charsLt cs ds

/-- The JS string `<`. -/
def strLt (a b : String) : Bool := charsLt a.data b.data

/-- JS `Array.prototype.sort` with comparator `c`, modelled as a stable
sort with `le a b` standing for `c(a, b) <= 0` (ES2019 sort is stable). -/
def sortBy {α : Type} (le : α → α → Bool) (l : List α) : List α :=
  List.insertionSort (fun a b => le a b = true) l

/-- Make a pair key (order-independent). -/
def pairKey (a b : String) : String :=
  if strLt a b then a ++ "_" ++ b else b ++ "_" ++ a

/-- Make a matchup key for 4 players (order-independent); `.sort()` uses the
default ascending string order. -/
def matchupKey (ids : List String) : String :=
  String.intercalate "_" (sortBy (fun x y => !strLt y x) ids)

/-- History lookups; the source `Map`/`Set` values are modelled as total
functions with the `get(k) || 0` (resp. `has`) default built in. -/
structure HistoryMaps where
  partnerCount : String → Nat
  opponentCount : String → Nat
  matchupSet : String → Bool
  sitOutCounts : String → Nat

/-- Increment `map.set(k, (map.get(k) || 0) + 1)` on a modelled counter. -/
def bump (f : String → Nat) (k : String) : String → Nat :=
  fun x => if x = k then f x + 1 else f x

/-- All unordered pairs `(i, j)` with `i < j` of a list, in source loop order. -/
def allPairs : List String → List (String × String)
  | [] => []
  | x :: xs => xs.map (fun y => (x, y)) ++ allPairs xs

/-- Fold one match of a prior round into the history maps. -/
def addMatchHistory (h : HistoryMaps) (m : Match) : HistoryMaps :=
  let aIds := m.teamA
  let bIds := m.teamB
  let pc := (allPairs aIds).foldl (fun f p => bump f (pairKey p.1 p.2)) h.partnerCount
  let pc := (allPairs bIds).foldl (fun f p => bump f (pairKey p.1 p.2)) pc
  let oc := aIds.foldl
    (fun f a => bIds.foldl (fun f' b => bump f' (pairKey a b)) f) h.opponentCount
  let mk := matchupKey (aIds ++ bIds)
  { partnerCount := pc
    opponentCount := oc
    matchupSet := fun x => if x = mk then true else h.matchupSet x
    sitOutCounts := h.sitOutCounts }

/-- Fold one prior round (its matches, then its sit-outs) into the history. -/
def addRoundHistory (h : HistoryMaps) (round : Round) : HistoryMaps :=
  let h₁ := round.matches.foldl addMatchHistory h
  { h₁ with sitOutCounts := round.sittingOut.foldl bump h₁.sitOutCounts }

/-- Build history maps from completed/scheduled rounds. -/
def buildHistory (players : List Player) (rounds : List Round) : HistoryMaps :=
  let init : HistoryMaps :=
    { partnerCount := fun _ => 0
      opponentCount := fun _ => 0
      matchupSet := fun _ => false
      sitOutCounts :=
        players.foldl (fun f p => fun x => if x = p.id then p.sitOutCount else f x)
          (fun _ => 0) }
  rounds.foldl addRoundHistory init

/-- Score a candidate pairing of 4 players into 2 teams (lower is better). -/
def scoreAmericanoPairing (teamA teamB : List String) (history : HistoryMaps) : Nat :=
  match teamA, teamB with
  | [a1, a2], [b1, b2] =>
    history.partnerCount (pairKey a1 a2) * 10
      + history.partnerCount (pairKey b1 b2) * 10
      + history.opponentCount (pairKey a1 b1) * 5
      + history.opponentCount (pairKey a1 b2) * 5
      + history.opponentCount (pairKey a2 b1) * 5
      + history.opponentCount (pairKey a2 b2) * 5
      + (if history.matchupSet (matchupKey [a1, a2, b1, b2]) then 1000 else 0)
  | _, _ => 0

/-- Try all 3 possible 2v2 splits of 4 players and keep the first split whose
score is strictly below the best so far (initial best score is infinite, so
the first split always loads first). -/
def bestAmericanoPairing (four : List String) (history : HistoryMaps) :
    List String × List String :=
  match four with
  | [a, b, c, d] =>
    let s1 := scoreAmericanoPairing [a, b] [c, d] history
    let s2 := scoreAmericanoPairing [a, c] [b, d] history
    let s3 := scoreAmericanoPairing [a, d] [b, c] history
    let best1 := (([a, b], [c, d]), s1)
    let best2 := if s2 < best1.2 then (([a, c], [b, d]), s2) else best1
    let best3 := if s3 < best2.2 then (([a, d], [b, c]), s3) else best2
    best3.1
  | _ => (four.take 2, four.drop 2)

/-- The per-court loop of `generateAmericanoRound`: slices the shuffled pool
into groups of four per court, breaking at the first short group, and returns
the candidate matches together with their total diversity score. -/
def buildAmericanoCourts (shuffled : List String) (history : HistoryMaps) :
    Rng → Nat → Nat → List Match × Nat × Rng
  | g, _, 0 => ([], 0, g)
  | g, court, remaining + 1 =>
    match (shuffled.drop ((court - 1) * 4)).take 4 with
    | [a, b, c, d] =>
      let tp := bestAmericanoPairing [a, b, c, d] history
      let sc := scoreAmericanoPairing tp.1 tp.2 history
      let mid := generateMatchId g
      let rest := buildAmericanoCourts shuffled history mid.2 (court + 1) remaining
      (⟨mid.1, court, tp.1, tp.2, "upcoming", none⟩ :: rest.1, sc + rest.2.1, rest.2.2)
    | _ => ([], 0, g)

/-- The multi-attempt search of `generateAmericanoRound`: attempt 0 uses the
seed order, later attempts reshuffle; the attempt with the lowest total score
is retained (initial best score is infinite, modelled as `none`). -/
def americanoAttemptLoop (pool : List String) (history : HistoryMaps) (courts : Nat) :
    Rng → List Match → Option Nat → Bool → Nat → List Match × Rng
  | g, bestM, _, _, 0 => (bestM, g)
  | g, bestM, bestScore, isFirst, n + 1 =>
    let step := if isFirst then (pool, g) else shuffle pool g
    let built := buildAmericanoCourts step.1 history step.2 1 courts
    if (match bestScore with | none => true | some b => built.2.1 < b) then
      americanoAttemptLoop pool history courts built.2.2 built.1 (some built.2.1) false n
    else americanoAttemptLoop pool history courts built.2.2 bestM bestScore false n

/-- Assign players to courts for a round (Americano / generic). -/
def generateAmericanoRound (playing : List Player) (courts : Nat)
    (history : HistoryMaps) (g : Rng) : List Match × Rng :=
  let pool := shuffle (playing.map (·.id)) g
  let attempts := min 20 (max 5 playing.length)
  let best := americanoAttemptLoop pool.1 history courts pool.2 [] none true attempts
  (if best.1.length > 0 then best.1 else [], best.2)

/-- Test `comparator(a, b) ≤ 0` for the Mexicano standings sort: total points
descending, ties broken by wins descending. -/
def mexLe (a b : Player) : Bool :=
  decide (b.totalPoints < a.totalPoints ∨
    (a.totalPoints = b.totalPoints ∧ b.wins ≤ a.wins))

/-- Per-court loop of the Mexicano round: consecutive groups of four of the
standings-sorted pool, paired rank-1-with-rank-4 versus rank-2-with-rank-3. -/
def buildMexicanoCourts (sorted : List Player) : Rng → Nat → Nat → List Match × Rng
  | g, _, 0 => ([], g)
  | g, court, remaining + 1 =>
    match (sorted.drop ((court - 1) * 4)).take 4 with
    | [p0, p1, p2, p3] =>
      let mid := generateMatchId g
      let rest := buildMexicanoCourts sorted mid.2 (court + 1) remaining
      (⟨mid.1, court, [p0.id, p3.id], [p1.id, p2.id], "upcoming", none⟩ :: rest.1, rest.2)
    | _ => ([], g)

/-- Generate a Mexicano round: round 1 random (as Americano), otherwise the
standings-seeded deterministic pairing. -/
def generateMexicanoRound (playing : List Player) (courts : Nat)
    (history : HistoryMaps) (isFirstRound : Bool) (g : Rng) : List Match × Rng :=
  if isFirstRound then generateAmericanoRound playing courts history g
  else buildMexicanoCourts (sortBy mexLe playing) g 1 courts

/-- Score a Mix Americano pairing — same as Americano. -/
def scoreMixPairing (teamA teamB : List String) (history : HistoryMaps) : Nat :=
  scoreAmericanoPairing teamA teamB history

/-- Per-court loop of the Mix Americano round: two males and two females per
court; if either gender runs short the remainders of both lists are pooled
into a best-effort unconstrained group (or the court is skipped below 4). -/
def buildMixCourts (males females : List Player) (history : HistoryMaps) :
    Rng → Nat → Nat → List Match × Rng
  | g, _, 0 => ([], g)
  | g, court, remaining + 1 =>
    let mStart := (court - 1) * 2
    let fStart := (court - 1) * 2
    let courtMales := (males.drop mStart).take 2
    let courtFemales := (females.drop fStart).take 2
    match courtMales, courtFemales with
    | [pm0, pm1], [pf0, pf1] =>
      let s1 := scoreMixPairing [pm0.id, pf0.id] [pm1.id, pf1.id] history
      let s2 := scoreMixPairing [pm0.id, pf1.id] [pm1.id, pf0.id] history
      let best := if s1 ≤ s2 then ([pm0.id, pf0.id], [pm1.id, pf1.id])
        else ([pm0.id, pf1.id], [pm1.id, pf0.id])
      let mid := generateMatchId g
      let rest := buildMixCourts males females history mid.2 (court + 1) remaining
      (⟨mid.1, court, best.1, best.2, "upcoming", none⟩ :: rest.1, rest.2)
    | _, _ =>
      let remainingPlayers := males.drop mStart ++ females.drop fStart
      if 4 ≤ remainingPlayers.length then
        let group := remainingPlayers.take 4
        let tp := bestAmericanoPairing (group.map (·.id)) history
        let mid := generateMatchId g
        let rest := buildMixCourts males females history mid.2 (court + 1) remaining
        (⟨mid.1, court, tp.1, tp.2, "upcoming", none⟩ :: rest.1, rest.2)
      else buildMixCourts males females history g (court + 1) remaining

/-- Generate a Mix Americano round. -/
def generateMixAmericanoRound (playing : List Player) (courts : Nat)
    (history : HistoryMaps) (g : Rng) : List Match × Rng :=
  let ms := shuffle (playing.filter (fun p => p.gender == "M")) g
  let fs := shuffle (playing.filter (fun p => p.gender == "F")) ms.2
  buildMixCourts ms.1 fs.1 history fs.2 1 courts

/-- Lookup in `new Map(playing.map(p => [p.id, p]))`: later entries overwrite. -/
def lookupPlayer (playing : List Player) (pid : String) : Option Player :=
  playing.reverse.find? (fun p => p.id == pid)

/-- Evaluate `playerMap.get(id)?.skill || 3`. -/
def skillOf (playing : List Player) (pid : String) : Nat :=
  match lookupPlayer playing pid with
  | some p => if p.skill = 0 then 3 else p.skill
  | none => 3

/-- Absolute value of a difference of naturals, `Math.abs`. -/
def absDiff (a b : Nat) : Nat := max a b - min a b

/-- Score a Skill Americano pairing: base diversity score plus twice the
skill gap between the teams. -/
def scoreSkillPairing (teamA teamB : List String) (playing : List Player)
    (history : HistoryMaps) : Nat :=
  match teamA, teamB with
  | [a1, a2], [b1, b2] =>
    scoreAmericanoPairing [a1, a2] [b1, b2] history
      + absDiff (skillOf playing a1 + skillOf playing a2)
          (skillOf playing b1 + skillOf playing b2) * 2
  | _, _ => 0

/-- The inline three-split search of the skill policy (also used verbatim by
the skill branch of `reshuffleMatch` in the source). -/
def bestSkillSplit (four : List String) (playing : List Player)
    (history : HistoryMaps) : (List String × List String) × Nat :=
  match four with
  | [a, b, c, d] =>
    let s1 := scoreSkillPairing [a, b] [c, d] playing history
    let s2 := scoreSkillPairing [a, c] [b, d] playing history
    let s3 := scoreSkillPairing [a, d] [b, c] playing history
    let best1 := (([a, b], [c, d]), s1)
    let best2 := if s2 < best1.2 then (([a, c], [b, d]), s2) else best1
    let best3 := if s3 < best2.2 then (([a, d], [b, c]), s3) else best2
    best3
  | _ => ((four.take 2, four.drop 2), 0)

/-- Per-court loop of the Skill Americano attempt. -/
def buildSkillCourts (shuffled : List String) (playing : List Player)
    (history : HistoryMaps) : Rng → Nat → Nat → List Match × Nat × Rng
  | g, _, 0 => ([], 0, g)
  | g, court, remaining + 1 =>
    match (shuffled.drop ((court - 1) * 4)).take 4 with
    | [a, b, c, d] =>
      let bs := bestSkillSplit [a, b, c, d] playing history
      let mid := generateMatchId g
      let rest := buildSkillCourts shuffled playing history mid.2 (court + 1) remaining
      (⟨mid.1, court, bs.1.1, bs.1.2, "upcoming", none⟩ :: rest.1, bs.2 + rest.2.1, rest.2.2)
    | _ => ([], 0, g)

/-- Multi-attempt search of the skill policy. -/
def skillAttemptLoop (pool : List String) (playing : List Player)
    (history : HistoryMaps) (courts : Nat) :
    Rng → List Match → Option Nat → Bool → Nat → List Match × Rng
  | g, bestM, _, _, 0 => (bestM, g)
  | g, bestM, bestScore, isFirst, n + 1 =>
    let step := if isFirst then (pool, g) else shuffle pool g
    let built := buildSkillCourts step.1 playing history step.2 1 courts
    if (match bestScore with | none => true | some b => built.2.1 < b) then
      skillAttemptLoop pool playing history courts built.2.2 built.1 (some built.2.1) false n
    else skillAttemptLoop pool playing history courts built.2.2 bestM bestScore false n

/-- Generate a Skill Americano round. -/
def generateSkillAmericanoRound (playing : List Player) (courts : Nat)
    (history : HistoryMaps) (g : Rng) : List Match × Rng :=
  let pool := shuffle (playing.map (·.id)) g
  let attempts := min 30 (max 10 (playing.length * 2))
  let best := skillAttemptLoop pool.1 playing history courts pool.2 [] none true attempts
  (if best.1.length > 0 then best.1 else [], best.2)

/-- Test `comparator(a, b) ≤ 0` for the selection priority sort: fewest games
played first, ties broken by highest sit-out count.  The final random
tie-break of the source comparator is realised by pre-shuffling (see below). -/
def selLe (history : HistoryMaps) (a b : Player) : Bool :=
  decide (a.gamesPlayed < b.gamesPlayed ∨
    (a.gamesPlayed = b.gamesPlayed ∧
      history.sitOutCounts b.id ≤ history.sitOutCounts a.id))

/-- Select which players play this round and who sits out (unconstrained
policy).  The random tie-break inside the source comparator is modelled as a
stable sort of a pre-shuffled copy of the active list. -/
def selectPlayersForRound (players : List Player) (courts : Nat)
    (history : HistoryMaps) (g : Rng) : (List Player × List String) × Rng :=
  let active := players.filter (fun p => p.status == "active")
  let playersNeeded := courts * 4
  if active.length ≤ playersNeeded then ((active, []), g)
  else
    let sh := shuffle active g
    let sorted := sortBy (selLe history) sh.1
    ((sorted.take playersNeeded, (sorted.drop playersNeeded).map (·.id)), sh.2)

/-- For Mix Americano, select players respecting gender quotas; this selector
draws no randomness (its comparator has no random fallback). -/
def selectPlayersForMixRound (players : List Player) (courts : Nat)
    (history : HistoryMaps) : List Player × List String :=
  let active := players.filter (fun p => p.status == "active")
  let males := active.filter (fun p => p.gender == "M")
  let females := active.filter (fun p => p.gender == "F")
  let malesNeeded := courts * 2
  let femalesNeeded := courts * 2
  let sortedMales := sortBy (selLe history) males
  let sortedFemales := sortBy (selLe history) females
  let playing := sortedMales.take malesNeeded ++ sortedFemales.take femalesNeeded
  let playingIds := playing.map (·.id)
  (playing, (active.filter (fun p => !playingIds.contains p.id)).map (·.id))

/-- The selection step of `generateRoundMatchups`, switching on the policy. -/
def selectForAlgorithm (players : List Player) (courts : Nat)
    (algorithm : Algorithm) (history : HistoryMaps) (g : Rng) :
    (List Player × List String) × Rng :=
  match algorithm with
  | .mix_americano => (selectPlayersForMixRound players courts history, g)
  | _ => selectPlayersForRound players courts history g

/-- The result record of `generateRoundMatchups`. -/
structure RoundResult where
  «matches» : List Match
  sittingOut : List String
deriving DecidableEq, Repr

/-- All player ids appearing in a match (both teams). -/
def matchPlayerIds (m : Match) : List String := m.teamA ++ m.teamB

/-- Generate matchups for a single round. -/
def generateRoundMatchups (players : List Player) (courts : Nat)
    (algorithm : Algorithm) (previousRounds : List Round) (_currentRound : Nat)
    (g : Rng) : RoundResult × Rng :=
  let active := players.filter (fun p => p.status == "active")
  if active.length < 4 then (⟨[], active.map (·.id)⟩, g)
  else
    let history := buildHistory players previousRounds
    let selr := selectForAlgorithm players courts algorithm history g
    let playing := selr.1.1
    if playing.length < 4 then (⟨[], active.map (·.id)⟩, selr.2)
    else
      let isFirstRound := previousRounds.isEmpty
      let mr : List Match × Rng :=
        match algorithm with
        | .americano => generateAmericanoRound playing courts history selr.2
        | .mexicano => generateMexicanoRound playing courts history isFirstRound selr.2
        | .mix_americano => generateMixAmericanoRound playing courts history selr.2
        | .skill_americano => generateSkillAmericanoRound playing courts history selr.2
      let inMatch := mr.1.flatMap matchPlayerIds
      let finalSittingOut := (active.filter (fun p => !inMatch.contains p.id)).map (·.id)
      (⟨mr.1, finalSittingOut⟩, mr.2)

/-- Check if a round is completed (nonempty and all matches completed). -/
def isRoundCompleted (round : Round) : Bool :=
  decide (0 < round.«matches».length) &&
    round.«matches».all (fun m => m.status == "completed")

/-- Test `comparator(a, b) ≤ 0` for sorting rounds by round number. -/
def roundLe (a b : Round) : Bool := decide (a.roundNumber ≤ b.roundNumber)

/-- The preservation test of `generateSchedule`: a round is kept verbatim
when its number is before the cutoff or when it is already completed. -/
def schedCond (fromRound : Nat) (r : Round) : Bool :=
  decide (r.roundNumber < fromRound) || isRoundCompleted r

/-- The regeneration loop of `generateSchedule` over the round numbers
`fromRound .. config.rounds`: numbers already held by a preserved round are
skipped; other rounds are generated against all prior context. -/
def genLoop (players : List Player) (config : Config) (preserved : List Round) :
    List Round → Rng → List Nat → List Round × Rng
  | acc, g, [] => (acc, g)
  | acc, g, n :: ns =>
    if preserved.any (fun r => r.roundNumber == n) then
      genLoop players config preserved acc g ns
    else
      let res := generateRoundMatchups players config.courts config.algorithm
        (preserved ++ acc) n g
      genLoop players config preserved (acc ++ [⟨n, res.1.«matches», res.1.sittingOut⟩]) res.2 ns

/-- Generate full schedule for all rounds, preserving rounds before
`fromRound` and rounds already completed. -/
def generateSchedule (players : List Player) (config : Config)
    (existingSchedule : List Round) (fromRound : Nat) (g : Rng) : List Round :=
  let preserved := sortBy roundLe (existingSchedule.filter (schedCond fromRound))
  let sched := genLoop players config preserved [] g
    (List.range' fromRound (config.rounds + 1 - fromRound))
  sortBy roundLe (preserved ++ sched.1)

/-- Regenerate schedule when players change mid-session. -/
def regenerateSchedule (players : List Player) (config : Config)
    (existingSchedule : List Round) (currentRound : Nat) (g : Rng) : List Round :=
  generateSchedule players config existingSchedule currentRound g

/-- Test `comparator(a, b) ≤ 0` for the Mexicano reshuffle standings sort. -/
def mexReshLe (a b : Player) : Bool := decide (b.totalPoints ≤ a.totalPoints)

/-- Reshuffle a single court's match using the active algorithm. -/
def reshuffleMatch (players : List Player) (algorithm : Algorithm)
    (pool : List Player) (court : Nat) (previousRounds : List Round) (g : Rng) :
    Option Match × Rng :=
  if pool.length < 4 then (none, g)
  else
    let history := buildHistory players previousRounds
    let fourPlayers := pool.take 4
    let teams : List String × List String :=
      match algorithm with
      | .mexicano =>
        match sortBy mexReshLe fourPlayers with
        | [p0, p1, p2, p3] => ([p0.id, p3.id], [p1.id, p2.id])
        | l => (l.map (·.id), [])
      | .mix_americano =>
        let males := fourPlayers.filter (fun p => p.gender == "M")
        let females := fourPlayers.filter (fun p => p.gender == "F")
        match males, females with
        | pm0 :: pm1 :: _, pf0 :: pf1 :: _ =>
          let s1 := scoreMixPairing [pm0.id, pf0.id] [pm1.id, pf1.id] history
          let s2 := scoreMixPairing [pm0.id, pf1.id] [pm1.id, pf0.id] history
          if s1 ≤ s2 then ([pm0.id, pf0.id], [pm1.id, pf1.id])
          else ([pm0.id, pf1.id], [pm1.id, pf0.id])
        | _, _ => bestAmericanoPairing (fourPlayers.map (·.id)) history
      | .skill_americano => (bestSkillSplit (fourPlayers.map (·.id)) fourPlayers history).1
      | _ => bestAmericanoPairing (fourPlayers.map (·.id)) history
    let mid := generateMatchId g
    (some ⟨mid.1, court, teams.1, teams.2, "upcoming", none⟩, mid.2)

/-- Validate Mix Americano requirements: `none` if valid, else an error. -/
def validateMixAmericano (players : List Player) : Option String :=
  let active := players.filter (fun p => p.status == "active")
  let males := active.filter (fun p => p.gender == "M")
  let females := active.filter (fun p => p.gender == "F")
  if males.length < 2 then
    some ("Need at least 2 male players (have " ++ toString males.length ++ ")")
  else if females.length < 2 then
    some ("Need at least 2 female players (have " ++ toString females.length ++ ")")
  else none

/-- The team-relevant projection of a match (court and the two teams),
i.e. a match with its random identifier and mutable status stripped. -/
def matchTeams (m : Match) : Nat × List String × List String :=
  (m.court, m.teamA, m.teamB)

/-- Modelled from the spec: the base diversity score of a 2v2 split, in the
spec's own words — 10 x partner count for each same-team pair, 5 x opponent
count for each of the four cross-team pairs, plus a flat 1000 if the full
4-player matchup has occurred before. -/
def specSplitScore (a1 a2 b1 b2 : String) (h : HistoryMaps) : Nat :=
  10 * h.partnerCount (pairKey a1 a2) + 10 * h.partnerCount (pairKey b1 b2)
    + 5 * h.opponentCount (pairKey a1 b1) + 5 * h.opponentCount (pairKey a1 b2)
    + 5 * h.opponentCount (pairKey a2 b1) + 5 * h.opponentCount (pairKey a2 b2)
    + (if h.matchupSet (matchupKey [a1, a2, b1, b2]) then 1000 else 0)

/-- Modelled from the spec: the standings order — cumulative points
descending, ties broken by wins descending. -/
def specStandingsLe (a b : Player) : Bool :=
  decide (b.totalPoints < a.totalPoints ∨
    (a.totalPoints = b.totalPoints ∧ b.wins ≤ a.wins))

/-- Modelled from the spec: slice a ranked pool into consecutive groups of
four in rank order, one per court, pairing rank 1 with rank 4 against rank 2
with rank 3; a short tail group is dropped. -/
def specSeedGroups : List Player → Nat → Nat → List (Nat × List String × List String)
  | p0 :: p1 :: p2 :: p3 :: rest, court, remaining + 1 =>
    (court, [p0.id, p3.id], [p1.id, p2.id]) :: specSeedGroups rest (court + 1) remaining
  | _, _, _ => []

/-- Modelled from the spec: the whole standings-seeded round — sort the entire
playing pool once by standings, then slice and seed deterministically. -/
def specStandingsSeeded (playing : List Player) (courts : Nat) :
    List (Nat × List String × List String) :=
  specSeedGroups (sortBy specStandingsLe playing) 1 courts

/-- The ids of the active players of a roster, the reference set for the
round partition invariant. -/
def activeIdsOf (players : List Player) : List String :=
  (players.filter (fun p => p.status == "active")).map (·.id)

/-- All player ids appearing in any match of a round result. -/
def roundMatchIds (res : RoundResult) : List String :=
  res.«matches».flatMap matchPlayerIds

/-- A concrete entropy stream (all draws zero) used for evaluating the
engine on concrete inputs. -/
def zeroRng : Rng := ⟨fun _ => 0, 0⟩

/-- Concrete roster: three active players (below the four-player minimum). -/
def wRoster3 : List Player := [{ id := "a" }, { id := "b" }, { id := "c" }]

/-- Concrete roster: four active players with distinct standings. -/
def wRoster4 : List Player :=
  [{ id := "a", totalPoints := 30 }, { id := "b", totalPoints := 25 },
   { id := "c", totalPoints := 20 }, { id := "d", totalPoints := 15 }]

/-- Concrete gender-unbalanced roster: two active males, eight active
females, all with distinct ids. -/
def wRosterMix : List Player :=
  [{ id := "m1", gender := "M" }, { id := "m2", gender := "M" },
   { id := "f1", gender := "F" }, { id := "f2", gender := "F" },
   { id := "f3", gender := "F" }, { id := "f4", gender := "F" },
   { id := "f5", gender := "F" }, { id := "f6", gender := "F" },
   { id := "f7", gender := "F" }, { id := "f8", gender := "F" }]

/-- A concrete completed round (one completed match). -/
def wCompletedRound : Round :=
  ⟨1, [⟨"m", 1, ["a", "b"], ["c", "d"], "completed", some (16, 5)⟩], []⟩

/-- Whether some player id occurs in two different matches of a list: the
negation of the pairwise-player-disjointness of a round. -/
def hasOverlappingMatches (ms : List Match) : Bool :=
  ms.any (fun m => ms.any (fun m' =>
    !(m == m') && (matchPlayerIds m).any (fun x => (matchPlayerIds m').contains x)))

section PermLemmas

variable {α : Type}

/-- Sorting with `sortBy` permutes the input. -/
theorem sortBy_perm (le : α → α → Bool) (l : List α) : (sortBy le l).Perm l :=
  List.perm_insertionSort _ l

/-- Placing `x` at position `m` and pulling the old entry to the front is a
permutation. -/
theorem cons_set_perm (xs : List α) (m : Nat) (x : α) (h : m < xs.length) :
    (xs.get ⟨m, h⟩ :: xs.set m x).Perm (x :: xs) := by
  induction xs generalizing m with
  | nil => simp at h
  | cons y ys ih =>
    cases m with
    | zero => simpa using List.Perm.swap x y ys
    | succ k =>
      have hk : k < ys.length := by simpa using h
      exact (List.Perm.swap y (ys.get ⟨k, hk⟩) (ys.set k x)).trans
        ((List.Perm.cons y (ih k hk)).trans (List.Perm.swap x y ys))

/-- Swapping two positions of a list is a permutation. -/
theorem listSwap_perm (l : List α) (i j : Nat) : (listSwap l i j).Perm l := by
  induction l generalizing i j with
  | nil => simp [listSwap]
  | cons x xs ih =>
    cases i with
    | zero =>
      cases j with
      | zero => simp [listSwap]
      | succ m =>
        unfold listSwap
        cases hm : xs[m]? with
        | none => simp [hm]
        | some b =>
          have hmlt : m < xs.length := by
            exact (List.getElem?_eq_some_iff.mp hm).1
          have hb : xs.get ⟨m, hmlt⟩ = b := by
            obtain ⟨h2, hb2⟩ := List.getElem?_eq_some_iff.mp hm
            simpa [List.get_eq_getElem] using hb2
          simp only [List.getElem?_cons_zero, List.getElem?_cons_succ, hm,
            List.set_cons_zero, List.set_cons_succ]
          rw [← hb]
          exact cons_set_perm xs m x hmlt
    | succ k =>
      cases j with
      | zero =>
        unfold listSwap
        cases hk : xs[k]? with
        | none => simp [hk]
        | some a =>
          have hklt : k < xs.length := by
            exact (List.getElem?_eq_some_iff.mp hk).1
          have ha : xs.get ⟨k, hklt⟩ = a := by
            obtain ⟨h2, ha2⟩ := List.getElem?_eq_some_iff.mp hk
            simpa [List.get_eq_getElem] using ha2
          simp only [List.getElem?_cons_succ, List.getElem?_cons_zero, hk,
            List.set_cons_succ, List.set_cons_zero]
          rw [← ha]
          exact cons_set_perm xs k x hklt
      | succ m =>
        unfold listSwap
        cases hk : xs[k]? with
        | none => simp [hk]
        | some a =>
          cases hm : xs[m]? with
          | none => simp [hk, hm]
          | some b =>
            simp only [List.getElem?_cons_succ, hk, hm,
              List.set_cons_succ]
            have := ih k m
            unfold listSwap at this
            rw [hk, hm] at this
            exact List.Perm.cons x this

/-- The Fisher-Yates loop permutes its input. -/
theorem fisherYates_perm (a : List α) (g : Rng) (n : Nat) :
    ((fisherYates a g n).1).Perm a := by
  induction n generalizing a g with
  | zero => simp [fisherYates]
  | succ k ih =>
    simp only [fisherYates]
    exact ((ih _ _).trans (listSwap_perm a (k + 1) _))

/-- Shuffling returns a permutation of the input. -/
theorem shuffle_perm (arr : List α) (g : Rng) : ((shuffle arr g).1).Perm arr :=
  fisherYates_perm arr g (arr.length - 1)

/-- Membership is invariant under `shuffle`. -/
theorem mem_shuffle {x : α} {arr : List α} {g : Rng} :
    x ∈ (shuffle arr g).1 ↔ x ∈ arr :=
  (shuffle_perm arr g).mem_iff

end PermLemmas

section SubsetLemmas

/-- Both teams chosen by the Americano split search draw from the four
candidates. -/
theorem bestAmericanoPairing_mem (four : List String) (h : HistoryMaps) (x : String)
    (hx : x ∈ (bestAmericanoPairing four h).1 ∨ x ∈ (bestAmericanoPairing four h).2) :
    x ∈ four := by
  match four with
  | [a, b, c, d] =>
    simp only [bestAmericanoPairing] at hx
    split at hx <;> split at hx <;> simp_all <;> tauto
  | [] => simp [bestAmericanoPairing] at hx
  | [a] => simp [bestAmericanoPairing] at hx ⊢; tauto
  | [a, b] => simp [bestAmericanoPairing] at hx ⊢; tauto
  | [a, b, c] => simp [bestAmericanoPairing] at hx ⊢; tauto
  | a :: b :: c :: d :: e :: rest =>
    simp only [bestAmericanoPairing] at hx
    rcases hx with hx | hx
    · exact List.mem_of_mem_take hx
    · exact List.mem_of_mem_drop hx

/-- Both teams chosen by the skill split search draw from the four
candidates. -/
theorem bestSkillSplit_mem (four : List String) (playing : List Player)
    (h : HistoryMaps) (x : String)
    (hx : x ∈ (bestSkillSplit four playing h).1.1 ∨
      x ∈ (bestSkillSplit four playing h).1.2) :
    x ∈ four := by
  match four with
  | [a, b, c, d] =>
    simp only [bestSkillSplit] at hx
    split at hx <;> split at hx <;> simp_all <;> tauto
  | [] => simp [bestSkillSplit] at hx
  | [a] => simp [bestSkillSplit] at hx ⊢; tauto
  | [a, b] => simp [bestSkillSplit] at hx ⊢; tauto
  | [a, b, c] => simp [bestSkillSplit] at hx ⊢; tauto
  | a :: b :: c :: d :: e :: rest =>
    simp only [bestSkillSplit] at hx
    rcases hx with hx | hx
    · exact List.mem_of_mem_take hx
    · exact List.mem_of_mem_drop hx

/-- Every match built by the Americano court loop draws its players from the
shuffled pool. -/
theorem buildAmericanoCourts_subset (shuffled : List String) (hist : HistoryMaps)
    (g : Rng) (court rem : Nat) (m : Match)
    (hm : m ∈ (buildAmericanoCourts shuffled hist g court rem).1) :
    ∀ x ∈ matchPlayerIds m, x ∈ shuffled := by
  induction rem generalizing g court with
  | zero => simp [buildAmericanoCourts] at hm
  | succ r ih =>
    rw [buildAmericanoCourts] at hm
    split at hm
    case _ a b c d heq =>
      have habcd : ∀ y ∈ [a, b, c, d], y ∈ shuffled := by
        intro y hy
        have : y ∈ (shuffled.drop ((court - 1) * 4)).take 4 := by rw [heq]; exact hy
        exact List.mem_of_mem_drop (List.mem_of_mem_take this)
      simp only [List.mem_cons] at hm
      rcases hm with rfl | hm
      · intro x hx
        simp only [matchPlayerIds, List.mem_append] at hx
        exact habcd x (bestAmericanoPairing_mem [a, b, c, d] hist x hx)
      · exact ih _ _ hm
    case _ => simp at hm

/-- The Americano attempt loop only returns matches drawn from the seed pool
(or from the incoming best candidate). -/
theorem americanoAttemptLoop_subset (pool : List String) (hist : HistoryMaps)
    (courts : Nat) (g : Rng) (bestM : List Match) (bestScore : Option Nat)
    (isFirst : Bool) (n : Nat)
    (hbest : ∀ m ∈ bestM, ∀ x ∈ matchPlayerIds m, x ∈ pool) (m : Match)
    (hm : m ∈ (americanoAttemptLoop pool hist courts g bestM bestScore isFirst n).1) :
    ∀ x ∈ matchPlayerIds m, x ∈ pool := by
  induction n generalizing g bestM bestScore isFirst with
  | zero =>
    simp only [americanoAttemptLoop] at hm
    exact hbest m hm
  | succ k ih =>
    simp only [americanoAttemptLoop] at hm
    have hcand : ∀ (sh : List String), (∀ x ∈ sh, x ∈ pool) → ∀ (g' : Rng),
        ∀ m' ∈ (buildAmericanoCourts sh hist g' 1 courts).1,
        ∀ x ∈ matchPlayerIds m', x ∈ pool := by
      intro sh hsh g' m' hm' x hx
      exact hsh x (buildAmericanoCourts_subset sh hist g' 1 courts m' hm' x hx)
    split at hm <;> split at hm
    · exact ih _ _ _ _ (hcand _ (fun x hx => hx) _) hm
    · exact ih _ _ _ _ hbest hm
    · exact ih _ _ _ _ (hcand _ (fun x hx => mem_shuffle.mp hx) _) hm
    · exact ih _ _ _ _ hbest hm

/-- Every match of an Americano round draws its players from the playing
pool. -/
theorem generateAmericanoRound_subset (playing : List Player) (courts : Nat)
    (hist : HistoryMaps) (g : Rng) (m : Match)
    (hm : m ∈ (generateAmericanoRound playing courts hist g).1) :
    ∀ x ∈ matchPlayerIds m, x ∈ playing.map (·.id) := by
  simp only [generateAmericanoRound] at hm
  split at hm
  · intro x hx
    have hpool : ∀ y ∈ (shuffle (playing.map (·.id)) g).1, y ∈ playing.map (·.id) := by
      intro y hy; exact mem_shuffle.mp hy
    exact americanoAttemptLoop_subset _ hist courts _ [] none true _
      (by simp) m hm x hx |> hpool x
  · simp at hm

/-- Every match of the Mexicano court loop draws its players from the sorted
pool. -/
theorem buildMexicanoCourts_subset (sorted : List Player) (g : Rng)
    (court rem : Nat) (m : Match)
    (hm : m ∈ (buildMexicanoCourts sorted g court rem).1) :
    ∀ x ∈ matchPlayerIds m, x ∈ sorted.map (·.id) := by
  induction rem generalizing g court with
  | zero => simp [buildMexicanoCourts] at hm
  | succ r ih =>
    rw [buildMexicanoCourts] at hm
    split at hm
    case _ p0 p1 p2 p3 heq =>
      have hmem : ∀ p ∈ [p0, p1, p2, p3], p ∈ sorted := by
        intro p hp
        have : p ∈ (sorted.drop ((court - 1) * 4)).take 4 := by rw [heq]; exact hp
        exact List.mem_of_mem_drop (List.mem_of_mem_take this)
      simp only [List.mem_cons] at hm
      rcases hm with rfl | hm
      · intro x hx
        simp only [matchPlayerIds, List.mem_append, List.mem_cons] at hx
        simp only [List.mem_map]
        rcases hx with (rfl | rfl | h) | (rfl | rfl | h) <;> first
          | exact ⟨p0, hmem p0 (by simp), rfl⟩
          | exact ⟨p1, hmem p1 (by simp), rfl⟩
          | exact ⟨p2, hmem p2 (by simp), rfl⟩
          | exact ⟨p3, hmem p3 (by simp), rfl⟩
          | simp at h
      · exact ih _ _ hm
    case _ => simp at hm

/-- Every match of a Mexicano round draws its players from the playing pool. -/
theorem generateMexicanoRound_subset (playing : List Player) (courts : Nat)
    (hist : HistoryMaps) (isFirst : Bool) (g : Rng) (m : Match)
    (hm : m ∈ (generateMexicanoRound playing courts hist isFirst g).1) :
    ∀ x ∈ matchPlayerIds m, x ∈ playing.map (·.id) := by
  simp only [generateMexicanoRound] at hm
  split at hm
  · exact generateAmericanoRound_subset playing courts hist g m hm
  · intro x hx
    have := buildMexicanoCourts_subset (sortBy mexLe playing) g 1 courts m hm x hx
    have hperm : ((sortBy mexLe playing).map (·.id)).Perm (playing.map (·.id)) :=
      (sortBy_perm mexLe playing).map _
    exact hperm.subset this

/-- Every match of the Mix court loop draws its players from the two gender
pools. -/
theorem buildMixCourts_subset (males females : List Player) (hist : HistoryMaps)
    (g : Rng) (court rem : Nat) (m : Match)
    (hm : m ∈ (buildMixCourts males females hist g court rem).1) :
    ∀ x ∈ matchPlayerIds m, x ∈ (males ++ females).map (·.id) := by
  induction rem generalizing g court with
  | zero => simp [buildMixCourts] at hm
  | succ r ih =>
    rw [buildMixCourts] at hm
    split at hm
    case _ pm0 pm1 pf0 pf1 hmeq hfeq =>
      have hpm : ∀ p ∈ [pm0, pm1], p ∈ males := by
        intro p hp
        have : p ∈ (males.drop ((court - 1) * 2)).take 2 := by rw [hmeq]; exact hp
        exact List.mem_of_mem_drop (List.mem_of_mem_take this)
      have hpf : ∀ p ∈ [pf0, pf1], p ∈ females := by
        intro p hp
        have : p ∈ (females.drop ((court - 1) * 2)).take 2 := by rw [hfeq]; exact hp
        exact List.mem_of_mem_drop (List.mem_of_mem_take this)
      dsimp only at hm
      rw [List.mem_cons] at hm
      rcases hm with rfl | hm
      · intro x hx
        have : x = pm0.id ∨ x = pm1.id ∨ x = pf0.id ∨ x = pf1.id := by
          simp only [matchPlayerIds] at hx
          split at hx <;> simp only [List.mem_append, List.mem_cons,
            List.not_mem_nil, or_false] at hx <;> tauto
        simp only [List.map_append, List.mem_append, List.mem_map]
        rcases this with rfl | rfl | rfl | rfl
        · exact Or.inl ⟨pm0, hpm pm0 (by simp), rfl⟩
        · exact Or.inl ⟨pm1, hpm pm1 (by simp), rfl⟩
        · exact Or.inr ⟨pf0, hpf pf0 (by simp), rfl⟩
        · exact Or.inr ⟨pf1, hpf pf1 (by simp), rfl⟩
      · exact ih _ _ hm
    all_goals
      dsimp only at hm
      split at hm
      · rw [List.mem_cons] at hm
        rcases hm with rfl | hm
        · intro x hx
          simp only [matchPlayerIds, List.mem_append] at hx
          have hx4 := bestAmericanoPairing_mem _ hist x hx
          simp only [List.mem_map] at hx4
          obtain ⟨p, hp, rfl⟩ := hx4
          have hp2 : p ∈ males.drop ((court - 1) * 2) ++ females.drop ((court - 1) * 2) :=
            List.mem_of_mem_take hp
          simp only [List.mem_append] at hp2
          simp only [List.map_append, List.mem_append, List.mem_map]
          rcases hp2 with h | h
          · exact Or.inl ⟨p, List.mem_of_mem_drop h, rfl⟩
          · exact Or.inr ⟨p, List.mem_of_mem_drop h, rfl⟩
        · exact ih _ _ hm
      · exact ih _ _ hm

/-- Every match of a Mix Americano round draws its players from the playing
pool. -/
theorem generateMixAmericanoRound_subset (playing : List Player) (courts : Nat)
    (hist : HistoryMaps) (g : Rng) (m : Match)
    (hm : m ∈ (generateMixAmericanoRound playing courts hist g).1) :
    ∀ x ∈ matchPlayerIds m, x ∈ playing.map (·.id) := by
  simp only [generateMixAmericanoRound] at hm
  intro x hx
  have := buildMixCourts_subset _ _ hist _ 1 courts m hm x hx
  simp only [List.map_append, List.mem_append, List.mem_map] at this
  rcases this with ⟨p, hp, rfl⟩ | ⟨p, hp, rfl⟩
  · have : p ∈ playing.filter (fun p => p.gender == "M") := mem_shuffle.mp hp
    exact List.mem_map_of_mem _ (List.mem_of_mem_filter this)
  · have : p ∈ playing.filter (fun p => p.gender == "F") := mem_shuffle.mp hp
    exact List.mem_map_of_mem _ (List.mem_of_mem_filter this)

/-- Every match built by the skill court loop draws its players from the
shuffled pool. -/
theorem buildSkillCourts_subset (shuffled : List String) (playing : List Player)
    (hist : HistoryMaps) (g : Rng) (court rem : Nat) (m : Match)
    (hm : m ∈ (buildSkillCourts shuffled playing hist g court rem).1) :
    ∀ x ∈ matchPlayerIds m, x ∈ shuffled := by
  induction rem generalizing g court with
  | zero => simp [buildSkillCourts] at hm
  | succ r ih =>
    rw [buildSkillCourts] at hm
    split at hm
    case _ a b c d heq =>
      have habcd : ∀ y ∈ [a, b, c, d], y ∈ shuffled := by
        intro y hy
        have : y ∈ (shuffled.drop ((court - 1) * 4)).take 4 := by rw [heq]; exact hy
        exact List.mem_of_mem_drop (List.mem_of_mem_take this)
      simp only [List.mem_cons] at hm
      rcases hm with rfl | hm
      · intro x hx
        simp only [matchPlayerIds, List.mem_append] at hx
        exact habcd x (bestSkillSplit_mem [a, b, c, d] playing hist x hx)
      · exact ih _ _ hm
    case _ => simp at hm

/-- The skill attempt loop only returns matches drawn from the seed pool. -/
theorem skillAttemptLoop_subset (pool : List String) (playing : List Player)
    (hist : HistoryMaps) (courts : Nat) (g : Rng) (bestM : List Match)
    (bestScore : Option Nat) (isFirst : Bool) (n : Nat)
    (hbest : ∀ m ∈ bestM, ∀ x ∈ matchPlayerIds m, x ∈ pool) (m : Match)
    (hm : m ∈ (skillAttemptLoop pool playing hist courts g bestM bestScore isFirst n).1) :
    ∀ x ∈ matchPlayerIds m, x ∈ pool := by
  induction n generalizing g bestM bestScore isFirst with
  | zero =>
    simp only [skillAttemptLoop] at hm
    exact hbest m hm
  | succ k ih =>
    simp only [skillAttemptLoop] at hm
    have hcand : ∀ (sh : List String), (∀ x ∈ sh, x ∈ pool) → ∀ (g' : Rng),
        ∀ m' ∈ (buildSkillCourts sh playing hist g' 1 courts).1,
        ∀ x ∈ matchPlayerIds m', x ∈ pool := by
      intro sh hsh g' m' hm' x hx
      exact hsh x (buildSkillCourts_subset sh playing hist g' 1 courts m' hm' x hx)
    split at hm <;> split at hm
    · exact ih _ _ _ _ (hcand _ (fun x hx => hx) _) hm
    · exact ih _ _ _ _ hbest hm
    · exact ih _ _ _ _ (hcand _ (fun x hx => mem_shuffle.mp hx) _) hm
    · exact ih _ _ _ _ hbest hm

/-- Every match of a Skill Americano round draws its players from the playing
pool. -/
theorem generateSkillAmericanoRound_subset (playing : List Player) (courts : Nat)
    (hist : HistoryMaps) (g : Rng) (m : Match)
    (hm : m ∈ (generateSkillAmericanoRound playing courts hist g).1) :
    ∀ x ∈ matchPlayerIds m, x ∈ playing.map (·.id) := by
  simp only [generateSkillAmericanoRound] at hm
  split at hm
  · intro x hx
    have hpool : ∀ y ∈ (shuffle (playing.map (·.id)) g).1, y ∈ playing.map (·.id) := by
      intro y hy; exact mem_shuffle.mp hy
    exact skillAttemptLoop_subset _ playing hist courts _ [] none true _
      (by simp) m hm x hx |> hpool x
  · simp at hm

/-- The playing pool returned by the selection step consists of active
players. -/
theorem selectForAlgorithm_subset (players : List Player) (courts : Nat)
    (alg : Algorithm) (hist : HistoryMaps) (g : Rng) (p : Player)
    (hp : p ∈ (selectForAlgorithm players courts alg hist g).1.1) :
    p ∈ players.filter (fun q => q.status == "active") := by
  cases alg <;>
    simp only [selectForAlgorithm, selectPlayersForRound, selectPlayersForMixRound] at hp
  case mix_americano =>
    simp only [List.mem_append] at hp
    rcases hp with h | h
    · exact List.mem_of_mem_filter ((sortBy_perm _ _).subset (List.mem_of_mem_take h))
    · exact List.mem_of_mem_filter ((sortBy_perm _ _).subset (List.mem_of_mem_take h))
  all_goals
    split at hp
    · exact hp
    · exact mem_shuffle.mp ((sortBy_perm _ _).subset (List.mem_of_mem_take hp))

end SubsetLemmas

/-- Every id in any match returned by `generateRoundMatchups` is an active
player id. -/
theorem generateRoundMatchups_matches_subset (players : List Player)
    (courts : Nat) (alg : Algorithm) (prev : List Round) (rn : Nat) (g : Rng) :
    ∀ x ∈ roundMatchIds (generateRoundMatchups players courts alg prev rn g).1,
      x ∈ activeIdsOf players := by
  intro x hx
  simp only [roundMatchIds, List.mem_flatMap] at hx
  obtain ⟨m, hm, hxm⟩ := hx
  have hsel := selectForAlgorithm_subset players courts alg
    (buildHistory players prev) g
  cases alg
  case americano =>
    simp only [generateRoundMatchups] at hm
    split at hm
    · simp at hm
    · split at hm
      · simp at hm
      · have hplay := generateAmericanoRound_subset _ _ _ _ m hm x hxm
        simp only [List.mem_map] at hplay
        obtain ⟨p, hp, rfl⟩ := hplay
        exact List.mem_map_of_mem _ (hsel p hp)
  case mexicano =>
    simp only [generateRoundMatchups] at hm
    split at hm
    · simp at hm
    · split at hm
      · simp at hm
      · have hplay := generateMexicanoRound_subset _ _ _ _ _ m hm x hxm
        simp only [List.mem_map] at hplay
        obtain ⟨p, hp, rfl⟩ := hplay
        exact List.mem_map_of_mem _ (hsel p hp)
  case mix_americano =>
    simp only [generateRoundMatchups] at hm
    split at hm
    · simp at hm
    · split at hm
      · simp at hm
      · have hplay := generateMixAmericanoRound_subset _ _ _ _ m hm x hxm
        simp only [List.mem_map] at hplay
        obtain ⟨p, hp, rfl⟩ := hplay
        exact List.mem_map_of_mem _ (hsel p hp)
  case skill_americano =>
    simp only [generateRoundMatchups] at hm
    split at hm
    · simp at hm
    · split at hm
      · simp at hm
      · have hplay := generateSkillAmericanoRound_subset _ _ _ _ m hm x hxm
        simp only [List.mem_map] at hplay
        obtain ⟨p, hp, rfl⟩ := hplay
        exact List.mem_map_of_mem _ (hsel p hp)

/-- Filtering a roster by "id not occurring in `L`" and projecting to ids is
the set difference of the projected roster and `L`. -/
theorem filter_not_contains_map_id (active : List Player) (L : List String)
    (x : String) :
    x ∈ (active.filter (fun p => !L.contains p.id)).map (·.id) ↔
      (x ∈ active.map (·.id) ∧ x ∉ L) := by
  simp only [List.mem_map, List.mem_filter]
  constructor
  · rintro ⟨p, ⟨hp, hc⟩, rfl⟩
    exact ⟨⟨p, hp, rfl⟩, by simpa using hc⟩
  · rintro ⟨⟨p, hp, rfl⟩, hnl⟩
    exact ⟨p, ⟨hp, by simpa using hnl⟩, rfl⟩

/-- The sitting-out list returned by `generateRoundMatchups` is exactly the
set of active ids not appearing in any returned match. -/
theorem generateRoundMatchups_sittingOut (players : List Player)
    (courts : Nat) (alg : Algorithm) (prev : List Round) (rn : Nat) (g : Rng) :
    ∀ x, x ∈ (generateRoundMatchups players courts alg prev rn g).1.sittingOut ↔
      (x ∈ activeIdsOf players ∧
        x ∉ roundMatchIds (generateRoundMatchups players courts alg prev rn g).1) := by
  intro x
  simp only [generateRoundMatchups, activeIdsOf, roundMatchIds]
  split
  · simp
  · split
    · simp
    · exact filter_not_contains_map_id _ _ x

/-- The code's split score coincides with the spec's base diversity
formula. -/
theorem scoreAmericanoPairing_eq_spec (a1 a2 b1 b2 : String) (h : HistoryMaps) :
    scoreAmericanoPairing [a1, a2] [b1, b2] h = specSplitScore a1 a2 b1 b2 h := by
  simp only [scoreAmericanoPairing, specSplitScore]
  split <;> ring

/-- C3: for four player ids and any history, the unconstrained pairing search
scores each split by the spec's formula (10 x partner counts, 5 x the four
opponent counts, flat 1000 for a repeated matchup), returns the first split
among AB|CD, AC|BD, AD|BC whose score is minimal, and the chosen split's
score is at most the score of each of the three splits. -/
theorem bestAmericanoPairing_first_min (a b c d : String) (h : HistoryMaps) :
    (∀ x1 x2 y1 y2 : String,
      scoreAmericanoPairing [x1, x2] [y1, y2] h = specSplitScore x1 x2 y1 y2 h) ∧
    bestAmericanoPairing [a, b, c, d] h =
      (if specSplitScore a b c d h ≤ specSplitScore a c b d h ∧
          specSplitScore a b c d h ≤ specSplitScore a d b c h then ([a, b], [c, d])
       else if specSplitScore a c b d h ≤ specSplitScore a d b c h then ([a, c], [b, d])
       else ([a, d], [b, c])) ∧
    scoreAmericanoPairing (bestAmericanoPairing [a, b, c, d] h).1
        (bestAmericanoPairing [a, b, c, d] h).2 h ≤ specSplitScore a b c d h ∧
    scoreAmericanoPairing (bestAmericanoPairing [a, b, c, d] h).1
        (bestAmericanoPairing [a, b, c, d] h).2 h ≤ specSplitScore a c b d h ∧
    scoreAmericanoPairing (bestAmericanoPairing [a, b, c, d] h).1
        (bestAmericanoPairing [a, b, c, d] h).2 h ≤ specSplitScore a d b c h := by
  refine ⟨fun x1 x2 y1 y2 => scoreAmericanoPairing_eq_spec x1 x2 y1 y2 h, ?_, ?_, ?_, ?_⟩ <;>
    simp only [bestAmericanoPairing, scoreAmericanoPairing_eq_spec] <;>
    split_ifs <;>
    simp only [scoreAmericanoPairing_eq_spec] <;>
    first
      | rfl
      | omega

/-- C2: for every roster, court count, policy, history and random stream, the
ids appearing in the returned matches are disjoint from the returned
sitting-out list, and together they are exactly the ids of the active
players. -/
theorem roundMatchups_partition (players : List Player) (courts : Nat)
    (alg : Algorithm) (prev : List Round) (rn : Nat) (g : Rng) :
    (∀ x, ¬(x ∈ roundMatchIds (generateRoundMatchups players courts alg prev rn g).1 ∧
        x ∈ (generateRoundMatchups players courts alg prev rn g).1.sittingOut)) ∧
    (∀ x, (x ∈ roundMatchIds (generateRoundMatchups players courts alg prev rn g).1 ∨
        x ∈ (generateRoundMatchups players courts alg prev rn g).1.sittingOut) ↔
      x ∈ activeIdsOf players) := by
  constructor
  · rintro x ⟨hxm, hxs⟩
    exact ((generateRoundMatchups_sittingOut players courts alg prev rn g x).mp hxs).2 hxm
  · intro x
    constructor
    · rintro (hx | hx)
      · exact generateRoundMatchups_matches_subset players courts alg prev rn g x hx
      · exact ((generateRoundMatchups_sittingOut players courts alg prev rn g x).mp hx).1
    · intro hx
      by_cases hm : x ∈ roundMatchIds (generateRoundMatchups players courts alg prev rn g).1
      · exact Or.inl hm
      · exact Or.inr ((generateRoundMatchups_sittingOut players courts alg prev rn g x).mpr
          ⟨hx, hm⟩)

/-- C6: `generateRoundMatchups` fails closed — if fewer than 4 players are
active, or the selected-to-play pool ends up below 4, it returns no matches
and reports every active player as sitting out, independently of the
history and the random stream. -/
theorem roundMatchups_fails_closed (players : List Player) (courts : Nat)
    (alg : Algorithm) (prev : List Round) (rn : Nat) (g : Rng)
    (h : (players.filter (fun p => p.status == "active")).length < 4 ∨
      (selectForAlgorithm players courts alg (buildHistory players prev) g).1.1.length < 4) :
    (generateRoundMatchups players courts alg prev rn g).1 =
      ⟨[], activeIdsOf players⟩ := by
  rcases h with h | h
  · simp only [generateRoundMatchups]
    simp [h, activeIdsOf]
  · simp only [generateRoundMatchups]
    by_cases h4 : (players.filter (fun p => p.status == "active")).length < 4
    · simp [h4, activeIdsOf]
    · simp [h4, h, activeIdsOf]

/-- Witness for C6 at a concrete input: three active players trigger the
fail-closed sentinel. -/
theorem roundMatchups_fails_closed_witness :
    ((wRoster3.filter (fun p => p.status == "active")).length < 4 ∨
      (selectForAlgorithm wRoster3 1 .americano (buildHistory wRoster3 []) zeroRng).1.1.length < 4) ∧
    (generateRoundMatchups wRoster3 1 .americano [] 1 zeroRng).1 =
      ⟨[], activeIdsOf wRoster3⟩ :=
  ⟨Or.inl (by decide),
    roundMatchups_fails_closed wRoster3 1 .americano [] 1 zeroRng (Or.inl (by decide))⟩

/-- C10: the gender validator errors exactly when there are fewer than two
active males or fewer than two active females. -/
theorem validateMixAmericano_iff (players : List Player) :
    validateMixAmericano players ≠ none ↔
      (((players.filter (fun p => p.status == "active")).filter
          (fun p => p.gender == "M")).length < 2 ∨
        ((players.filter (fun p => p.status == "active")).filter
          (fun p => p.gender == "F")).length < 2) := by
  simp only [validateMixAmericano]
  split_ifs with h1 h2
  · exact iff_of_true (by simp) (Or.inl h1)
  · exact iff_of_true (by simp) (Or.inr h2)
  · exact iff_of_false (by simp) (fun hc => hc.elim h1 h2)

/-- C8: with the ambient `Math.random()` modelled as an injected entropy
stream, `generateRoundMatchups` is deterministic — equal inputs and an equal
stream (same draws, same position) give equal output. -/
theorem roundMatchups_deterministic (players : List Player) (courts : Nat)
    (alg : Algorithm) (prev : List Round) (rn : Nat) (g₁ g₂ : Rng)
    (hseq : g₁.seq = g₂.seq) (hpos : g₁.pos = g₂.pos) :
    generateRoundMatchups players courts alg prev rn g₁ =
      generateRoundMatchups players courts alg prev rn g₂ := by
  cases g₁
  cases g₂
  simp only at hseq hpos
  subst hseq
  subst hpos
  rfl

/-- Witness for C8 at a concrete input and seed. -/
theorem roundMatchups_deterministic_witness :
    (zeroRng.seq = zeroRng.seq ∧ zeroRng.pos = zeroRng.pos) ∧
    generateRoundMatchups wRoster4 1 .americano [] 1 zeroRng =
      generateRoundMatchups wRoster4 1 .americano [] 1 zeroRng :=
  ⟨⟨rfl, rfl⟩, roundMatchups_deterministic wRoster4 1 .americano [] 1 zeroRng zeroRng rfl rfl⟩

set_option maxHeartbeats 1000000 in
/-- C7 (code bug): on a concrete valid roster (2 active males, 8 active
females, all ids distinct) with 4 courts and no history, the gender policy's
tail fallback assigns the same players to two different courts: the round
returned by `generateRoundMatchups` has overlapping matches. -/
theorem mixAmericano_overlapping_matches :
    hasOverlappingMatches
      (generateRoundMatchups wRosterMix 4 .mix_americano [] 1 zeroRng).1.«matches» = true := by
  decide

set_option maxHeartbeats 1000000 in
/-- Counterexample to C4 as stated: `generateRoundMatchups` called for the
standings policy with `roundNumber = 2` but an empty prior-round list runs
the randomized generator, not the deterministic standings slicing — on a
concrete 4-player roster the produced teams differ from the
standings-seeded ones. -/
theorem mexicano_roundNumber_not_consulted :
    ((generateRoundMatchups wRoster4 1 .mexicano [] 2 zeroRng).1.«matches».map matchTeams)
      ≠ specStandingsSeeded (wRoster4.filter (fun p => p.status == "active")) 1 := by
  decide

/-- The Mexicano court loop realises the spec's rank slicing: consecutive
groups of four of the sorted pool, rank 1 with rank 4 versus rank 2 with
rank 3, one group per court. -/
theorem buildMexicanoCourts_teams (sorted : List Player) (g : Rng) (court rem : Nat)
    (hc : 1 ≤ court) :
    (buildMexicanoCourts sorted g court rem).1.map matchTeams =
      specSeedGroups (sorted.drop ((court - 1) * 4)) court rem := by
  induction rem generalizing g court with
  | zero => simp [buildMexicanoCourts, specSeedGroups]
  | succ r ih =>
    rcases hdrop : sorted.drop ((court - 1) * 4) with _ | ⟨p0, _ | ⟨p1, _ | ⟨p2, _ | ⟨p3, tail⟩⟩⟩⟩
    · rw [buildMexicanoCourts]; simp [hdrop, specSeedGroups]
    · rw [buildMexicanoCourts]; simp [hdrop, specSeedGroups]
    · rw [buildMexicanoCourts]; simp [hdrop, specSeedGroups]
    · rw [buildMexicanoCourts]; simp [hdrop, specSeedGroups]
    · rw [buildMexicanoCourts]
      have h14 : (sorted.drop ((court - 1) * 4)).take 4 = [p0, p1, p2, p3] := by
        rw [hdrop]
        rfl
      have htail : sorted.drop (court * 4) = tail := by
        have h1 : (sorted.drop ((court - 1) * 4)).drop 4 = tail := by
          rw [hdrop]
          rfl
        rw [List.drop_drop] at h1
        have h2 : 4 + (court - 1) * 4 = court * 4 := by omega
        have h3 : (court - 1) * 4 + 4 = court * 4 := by omega
        first
          | rwa [h2] at h1
          | rwa [h3] at h1
      have hih := ih (generateMatchId g).2 (court + 1) (by omega)
      have hcourt : court + 1 - 1 = court := by omega
      rw [hcourt, htail] at hih
      simp [h14, hdrop, specSeedGroups, matchTeams, hih]

/-- C4 (amended): for the standings policy, round-1-ness is decided by an
empty prior-round list, not by the `roundNumber` argument.  Whenever the
prior rounds are nonempty, the Mexicano generator performs no randomized
search: the entire playing pool is sorted once by cumulative points
descending (ties by wins descending), sliced into consecutive groups of
four in rank order, and each court pairs rank 1 with rank 4 versus rank 2
with rank 3 — and `generateRoundMatchups` realises exactly this on the
active pool whenever at least 4 players are active and all of them fit on
the courts. -/
theorem mexicano_standings_seeded (players : List Player) (courts : Nat)
    (prev : List Round) (rn : Nat) (g : Rng)
    (hprev : prev ≠ [])
    (hcap : (players.filter (fun p => p.status == "active")).length ≤ courts * 4)
    (h4 : 4 ≤ (players.filter (fun p => p.status == "active")).length) :
    (∀ (playing : List Player) (hist : HistoryMaps) (g₂ : Rng),
      (generateMexicanoRound playing courts hist false g₂).1.map matchTeams =
        specStandingsSeeded playing courts) ∧
    (generateRoundMatchups players courts .mexicano prev rn g).1.«matches».map matchTeams =
      specStandingsSeeded (players.filter (fun p => p.status == "active")) courts := by
  have hbase : ∀ (playing : List Player) (hist : HistoryMaps) (g₂ : Rng),
      (generateMexicanoRound playing courts hist false g₂).1.map matchTeams =
        specStandingsSeeded playing courts := by
    intro playing hist g₂
    rw [generateMexicanoRound, if_neg (by simp)]
    have hle : mexLe = specStandingsLe := rfl
    have := buildMexicanoCourts_teams (sortBy mexLe playing) g₂ 1 courts (le_refl 1)
    simpa [specStandingsSeeded, hle] using this
  refine ⟨hbase, ?_⟩
  have hie : prev.isEmpty = false := by
    cases prev
    · exact absurd rfl hprev
    · rfl
  simp only [generateRoundMatchups, selectForAlgorithm, selectPlayersForRound]
  rw [if_neg (by omega :
    ¬(players.filter (fun p => p.status == "active")).length < 4)]
  rw [if_pos hcap]
  dsimp only
  rw [if_neg (by omega :
    ¬(players.filter (fun p => p.status == "active")).length < 4)]
  rw [hie]
  dsimp only
  exact hbase _ _ _

/-- Witness for the amended C4 at a concrete input: four active players with
points 30, 25, 20, 15, one court, a nonempty prior round, round number 2. -/
theorem mexicano_standings_seeded_witness :
    ([wCompletedRound] ≠ ([] : List Round) ∧
      (wRoster4.filter (fun p => p.status == "active")).length ≤ 1 * 4 ∧
      4 ≤ (wRoster4.filter (fun p => p.status == "active")).length) ∧
    (generateRoundMatchups wRoster4 1 .mexicano [wCompletedRound] 2 zeroRng).1.«matches».map matchTeams =
      specStandingsSeeded (wRoster4.filter (fun p => p.status == "active")) 1 :=
  ⟨⟨by decide, by decide, by decide⟩,
    (mexicano_standings_seeded wRoster4 1 [wCompletedRound] 2 zeroRng
      (by decide) (by decide) (by decide)).2⟩

/-- A list of length 4 is an explicit 4-element list. -/
theorem exists_four_of_length {α : Type} (l : List α) (h : l.length = 4) :
    ∃ a b c d, l = [a, b, c, d] := by
  rcases l with _ | ⟨a, l⟩
  · simp at h
  rcases l with _ | ⟨b, l⟩
  · simp at h
  rcases l with _ | ⟨c, l⟩
  · simp at h
  rcases l with _ | ⟨d, l⟩
  · simp at h
  rcases l with _ | ⟨e, l⟩
  · exact ⟨a, b, c, d, rfl⟩
  · simp at h

/-- The two teams of the unconstrained split search partition the four
candidates (up to order). -/
theorem bestAmericanoPairing_teams_perm (a b c d : String) (h : HistoryMaps) :
    ((bestAmericanoPairing [a, b, c, d] h).1 ++
      (bestAmericanoPairing [a, b, c, d] h).2).Perm [a, b, c, d] := by
  simp only [bestAmericanoPairing]
  split_ifs <;> simp only [List.cons_append, List.nil_append] <;>
    first
      | exact List.Perm.refl _
      | exact List.Perm.cons a (List.Perm.swap b c [d])
      | exact List.Perm.cons a ((List.Perm.swap b d [c]).trans
          (List.Perm.cons b (List.Perm.swap c d [])))

/-- The two teams of the skill split search partition the four candidates. -/
theorem bestSkillSplit_teams_perm (a b c d : String) (playing : List Player)
    (h : HistoryMaps) :
    ((bestSkillSplit [a, b, c, d] playing h).1.1 ++
      (bestSkillSplit [a, b, c, d] playing h).1.2).Perm [a, b, c, d] := by
  simp only [bestSkillSplit]
  split_ifs <;> simp only [List.cons_append, List.nil_append] <;>
    first
      | exact List.Perm.refl _
      | exact List.Perm.cons a (List.Perm.swap b c [d])
      | exact List.Perm.cons a ((List.Perm.swap b d [c]).trans
          (List.Perm.cons b (List.Perm.swap c d [])))

/-- The rank-1/rank-4 versus rank-2/rank-3 seeding is a permutation of the
four ranked players. -/
theorem seed_teams_perm {α : Type} (x0 x1 x2 x3 : α) :
    ([x0, x3] ++ [x1, x2]).Perm [x0, x1, x2, x3] := by
  simp only [List.cons_append, List.nil_append]
  exact List.Perm.cons x0 ((List.Perm.swap x1 x3 [x2]).trans
    (List.Perm.cons x1 (List.Perm.swap x2 x3 [])))

/-- On a 4-element list with at least two of each gender, the male filter and
the female filter have exactly two members each and together partition the
list. -/
theorem filter_MF_partition (l : List Player)
    (h2m : 2 ≤ (l.filter (fun p => p.gender == "M")).length)
    (h2f : 2 ≤ (l.filter (fun p => p.gender == "F")).length)
    (hlen : l.length = 4) :
    ((l.filter (fun p => p.gender == "M")) ++
      (l.filter (fun p => p.gender == "F"))).Perm l ∧
    (l.filter (fun p => p.gender == "M")).length = 2 ∧
    (l.filter (fun p => p.gender == "F")).length = 2 := by
  have hqf : l.filter (fun p => p.gender == "F") =
      (l.filter (fun x => !(fun p : Player => p.gender == "M") x)).filter
        (fun p => p.gender == "F") := by
    rw [List.filter_filter]
    apply List.filter_congr
    intro x hx
    by_cases hx2 : (x.gender == "F") = true
    · have hgf : x.gender = "F" := by simpa using hx2
      simp [hx2, hgf]
    · simp at hx2
      simp [hx2]
  have hsplit : (l.filter (fun p => p.gender == "M")).length +
      (l.filter (fun x => !(fun p : Player => p.gender == "M") x)).length = l.length := by
    simpa using (List.filter_append_perm (fun p : Player => p.gender == "M") l).length_eq
  have hq_le : (l.filter (fun p => p.gender == "F")).length ≤
      (l.filter (fun x => !(fun p : Player => p.gender == "M") x)).length := by
    rw [hqf]
    exact List.length_filter_le _ _
  have hm2 : (l.filter (fun p => p.gender == "M")).length = 2 := by omega
  have hnp2 : (l.filter (fun x => !(fun p : Player => p.gender == "M") x)).length = 2 := by
    omega
  have hfq_eq : l.filter (fun p => p.gender == "F") =
      l.filter (fun x => !(fun p : Player => p.gender == "M") x) := by
    rw [hqf]
    apply List.Sublist.eq_of_length (List.filter_sublist _)
    rw [← hqf, hnp2]
    omega
  refine ⟨?_, hm2, by omega⟩
  rw [hfq_eq]
  exact List.filter_append_perm _ l

/-- C9: `reshuffleMatch` returns no match exactly when the candidate pool is
below four entries; otherwise it returns a match for the requested court
whose four player ids are exactly the ids of the first four pool entries
(teams assigned per the active policy's pairing rule). -/
theorem reshuffleMatch_spec (players : List Player) (alg : Algorithm)
    (pool : List Player) (court : Nat) (prev : List Round) (g : Rng) :
    ((reshuffleMatch players alg pool court prev g).1 = none ↔ pool.length < 4) ∧
    (∀ m, (reshuffleMatch players alg pool court prev g).1 = some m →
      m.court = court ∧ (matchPlayerIds m).Perm ((pool.take 4).map (·.id))) := by
  by_cases hlen : pool.length < 4
  · constructor
    · simp only [reshuffleMatch, if_pos hlen]
      exact iff_of_true trivial hlen
    · intro m hm
      simp only [reshuffleMatch, if_pos hlen] at hm
      exact absurd hm (by simp)
  · have hfourlen : (pool.take 4).length = 4 := by
      rw [List.length_take]
      omega
    constructor
    · exact iff_of_false (by simp [reshuffleMatch, hlen]) hlen
    · intro m hm
      simp only [reshuffleMatch] at hm
      rw [if_neg hlen] at hm
      cases alg
      · -- americano
        dsimp only at hm
        rw [Option.some.injEq] at hm
        subst hm
        refine ⟨rfl, ?_⟩
        simp only [matchPlayerIds]
        obtain ⟨a, b, c, d, he⟩ := exists_four_of_length ((pool.take 4).map (·.id))
          (by simp [List.length_take]; omega)
        rw [he]
        exact bestAmericanoPairing_teams_perm a b c d _
      · -- mexicano
        have hslen : (sortBy mexReshLe (pool.take 4)).length = 4 :=
          (sortBy_perm _ _).length_eq.trans hfourlen
        obtain ⟨p0, p1, p2, p3, hs⟩ := exists_four_of_length _ hslen
        dsimp only at hm
        rw [hs] at hm
        dsimp only at hm
        rw [Option.some.injEq] at hm
        subst hm
        refine ⟨rfl, ?_⟩
        simp only [matchPlayerIds]
        refine (seed_teams_perm p0.id p1.id p2.id p3.id).trans ?_
        have hmap : ([p0, p1, p2, p3].map (·.id)).Perm ((pool.take 4).map (·.id)) := by
          rw [← hs]
          exact (sortBy_perm _ _).map _
        simpa using hmap
      · -- mix_americano
        dsimp only at hm
        split at hm
        case _ pm0 pm1 ml pf0 pf1 fl hmeq hfeq =>
          have h2m : 2 ≤ ((pool.take 4).filter (fun p => p.gender == "M")).length := by
            rw [hmeq]
            simp
          have h2f : 2 ≤ ((pool.take 4).filter (fun p => p.gender == "F")).length := by
            rw [hfeq]
            simp
          obtain ⟨hperm, hm2, hf2⟩ := filter_MF_partition (pool.take 4) h2m h2f hfourlen
          have hml : ml = [] := by
            rw [hmeq] at hm2
            simpa using hm2
          have hfl : fl = [] := by
            rw [hfeq] at hf2
            simpa using hf2
          subst hml
          subst hfl
          have hperm4 : ([pm0, pm1] ++ [pf0, pf1]).Perm (pool.take 4) := by
            rw [← hmeq, ← hfeq]
            exact hperm
          split at hm <;>
            (rw [Option.some.injEq] at hm
             subst hm
             refine ⟨rfl, ?_⟩
             simp only [matchPlayerIds])
          · exact (List.Perm.cons pm0.id (List.Perm.swap pm1.id pf0.id [pf1.id])).trans
              (hperm4.map (fun p : Player => p.id))
          · exact (List.Perm.cons pm0.id ((List.Perm.swap pm1.id pf1.id [pf0.id]).trans
              (List.Perm.cons pm1.id (List.Perm.swap pf0.id pf1.id [])))).trans
              (hperm4.map (fun p : Player => p.id))
        all_goals
          rw [Option.some.injEq] at hm
          subst hm
          refine ⟨rfl, ?_⟩
          simp only [matchPlayerIds]
          obtain ⟨a, b, c, d, he⟩ := exists_four_of_length ((pool.take 4).map (·.id))
            (by simp [List.length_take]; omega)
          rw [he]
          exact bestAmericanoPairing_teams_perm a b c d _
      · -- skill_americano
        dsimp only at hm
        rw [Option.some.injEq] at hm
        subst hm
        refine ⟨rfl, ?_⟩
        simp only [matchPlayerIds]
        obtain ⟨a, b, c, d, he⟩ := exists_four_of_length ((pool.take 4).map (·.id))
          (by simp [List.length_take]; omega)
        rw [he]
        exact bestSkillSplit_teams_perm a b c d _ _

/-- Witness for C9 at a concrete input: a pool of four players, court 7. -/
theorem reshuffleMatch_spec_witness :
    ((reshuffleMatch wRoster4 .americano wRoster4 7 [] zeroRng).1 = none ↔
      wRoster4.length < 4) ∧
    ((⟨"0", 7, ["a", "b"], ["c", "d"], "upcoming", none⟩ : Match).court = 7 ∧
      (matchPlayerIds ⟨"0", 7, ["a", "b"], ["c", "d"], "upcoming", none⟩).Perm
        ((wRoster4.take 4).map (·.id))) :=
  ⟨(reshuffleMatch_spec wRoster4 .americano wRoster4 7 [] zeroRng).1,
    (reshuffleMatch_spec wRoster4 .americano wRoster4 7 [] zeroRng).2
      ⟨"0", 7, ["a", "b"], ["c", "d"], "upcoming", none⟩ (by decide)⟩

/-- Existence testing with `any` is invariant under permutation. -/
theorem perm_any {α : Type} {l₁ l₂ : List α} (h : l₁.Perm l₂) (f : α → Bool) :
    l₁.any f = l₂.any f := by
  cases e : l₂.any f
  · simp only [List.any_eq_false] at *
    intro x hx
    exact e x (h.mem_iff.mp hx)
  · simp only [List.any_eq_true] at *
    obtain ⟨x, hx, hfx⟩ := e
    exact ⟨x, h.mem_iff.mpr hx, hfx⟩

/-- The round numbers produced by the regeneration loop: the accumulator's
numbers followed by the candidate numbers not already held by a preserved
round. -/
theorem genLoop_map_num (players : List Player) (config : Config)
    (preserved : List Round) :
    ∀ (nums : List Nat) (acc : List Round) (g : Rng),
      ((genLoop players config preserved acc g nums).1).map (·.roundNumber) =
        acc.map (·.roundNumber) ++
          nums.filter (fun n => !(preserved.any (fun r => r.roundNumber == n))) := by
  intro nums
  induction nums with
  | nil =>
    intro acc g
    simp [genLoop]
  | cons n ns ih =>
    intro acc g
    rw [genLoop]
    split
    case _ hany =>
      rw [ih]
      simp [List.filter_cons, hany]
    case _ hany =>
      rw [ih]
      have hfalse : (preserved.any fun r => r.roundNumber == n) = false := by
        simpa using hany
      simp [List.filter_cons, hfalse]

/-- Every round returned by the regeneration loop beyond the accumulator has
a round number not held by any preserved round. -/
theorem genLoop_mem (players : List Player) (config : Config)
    (preserved : List Round) :
    ∀ (nums : List Nat) (acc : List Round) (g : Rng) (r' : Round),
      r' ∈ (genLoop players config preserved acc g nums).1 →
      r' ∈ acc ∨ ∀ p ∈ preserved, p.roundNumber ≠ r'.roundNumber := by
  intro nums
  induction nums with
  | nil =>
    intro acc g r' h
    exact Or.inl (by simpa [genLoop] using h)
  | cons n ns ih =>
    intro acc g r' h
    rw [genLoop] at h
    split at h
    case _ hany => exact ih _ _ _ h
    case _ hany =>
      rcases ih _ _ _ h with hacc | hne
      · rw [List.mem_append] at hacc
        rcases hacc with h1 | h1
        · exact Or.inl h1
        · simp only [List.mem_singleton] at h1
          subst h1
          right
          intro p hp
          have hfalse : (preserved.any fun r => r.roundNumber == n) = false := by
            simpa using hany
          simp only [List.any_eq_false] at hfalse
          simpa using hfalse p hp
      · exact Or.inr hne

/-- Any existing round passing the preservation test is a member of the
generated schedule. -/
theorem preserved_mem_generateSchedule (players : List Player) (config : Config)
    (existing : List Round) (fromRound : Nat) (g : Rng) (r : Round)
    (hr : r ∈ existing) (hcond : schedCond fromRound r = true) :
    r ∈ generateSchedule players config existing fromRound g := by
  simp only [generateSchedule]
  refine (sortBy_perm _ _).mem_iff.mpr ?_
  refine List.mem_append.mpr (Or.inl ?_)
  exact (sortBy_perm _ _).mem_iff.mpr (List.mem_filter.mpr ⟨hr, hcond⟩)

/-- C1: a completed round of the existing schedule appears verbatim in the
output of `generateSchedule`, whatever the cutoff and the random stream; two
calls with the same arguments both contain it; and any output round carrying
its round number is itself a round of the existing schedule (so a completed
round's number is never regenerated). -/
theorem completed_round_preserved (players : List Player) (config : Config)
    (existing : List Round) (fromRound : Nat) (g₁ g₂ : Rng) (r : Round)
    (hr : r ∈ existing) (hc : isRoundCompleted r = true) :
    r ∈ generateSchedule players config existing fromRound g₁ ∧
    r ∈ generateSchedule players config existing fromRound g₂ ∧
    (∀ r' ∈ generateSchedule players config existing fromRound g₁,
      r'.roundNumber = r.roundNumber → r' ∈ existing) := by
  have hcond : schedCond fromRound r = true := by
    simp [schedCond, hc]
  refine ⟨preserved_mem_generateSchedule players config existing fromRound g₁ r hr hcond,
    preserved_mem_generateSchedule players config existing fromRound g₂ r hr hcond, ?_⟩
  intro r' hr' heq
  simp only [generateSchedule] at hr'
  have hmem := (sortBy_perm _ _).mem_iff.mp hr'
  rw [List.mem_append] at hmem
  rcases hmem with hp | hs
  · exact List.mem_of_mem_filter ((sortBy_perm _ _).mem_iff.mp hp)
  · rcases genLoop_mem players config _ _ _ _ _ hs with habs | hne
    · simp at habs
    · exfalso
      have hrp : r ∈ sortBy roundLe (existing.filter (schedCond fromRound)) :=
        (sortBy_perm _ _).mem_iff.mpr (List.mem_filter.mpr ⟨hr, hcond⟩)
      exact hne r hrp (by rw [heq])

/-- Witness for C1 at a concrete input: a schedule holding one completed
round, regenerated from round 1 with two different streams. -/
theorem completed_round_preserved_witness :
    ([wCompletedRound] ≠ ([] : List Round) ∧
      wCompletedRound ∈ [wCompletedRound] ∧
      isRoundCompleted wCompletedRound = true) ∧
    (wCompletedRound ∈ generateSchedule wRoster4 ⟨1, 1, .americano⟩ [wCompletedRound] 1 zeroRng ∧
      wCompletedRound ∈ generateSchedule wRoster4 ⟨1, 1, .americano⟩ [wCompletedRound] 1 ⟨fun n => n, 0⟩ ∧
      (∀ r' ∈ generateSchedule wRoster4 ⟨1, 1, .americano⟩ [wCompletedRound] 1 zeroRng,
        r'.roundNumber = wCompletedRound.roundNumber → r' ∈ [wCompletedRound])) :=
  ⟨⟨by decide, by decide, by decide⟩,
    completed_round_preserved wRoster4 ⟨1, 1, .americano⟩ [wCompletedRound] 1 zeroRng
      ⟨fun n => n, 0⟩ wCompletedRound (by decide) (by decide)⟩

/-- Counterexample to C5 as stated: with an empty existing schedule and
`fromRound = 2`, `generateSchedule` never generates round 1 — the returned
list does not contain one round per number `1..config.rounds`. -/
theorem generateSchedule_missing_round :
    (generateSchedule [] ⟨1, 1, .americano⟩ [] 2 zeroRng).map (·.roundNumber) ≠
      List.range' 1 (1 : Nat) := by
  decide

/-- The round numbers of a sorted-by-number round list are weakly
increasing. -/
theorem sortBy_roundLe_sorted (l : List Round) :
    List.Pairwise (fun a b : Round => a.roundNumber ≤ b.roundNumber)
      (sortBy roundLe l) := by
  haveI hT : IsTrans Round (fun a b => roundLe a b = true) := ⟨by
    intro a b c hab hbc
    simp only [roundLe, decide_eq_true_eq] at *
    omega⟩
  haveI hTot : IsTotal Round (fun a b => roundLe a b = true) := ⟨by
    intro a b
    simp only [roundLe, decide_eq_true_eq]
    omega⟩
  have hs := List.sorted_insertionSort (fun a b : Round => roundLe a b = true) l
  refine hs.imp ?_
  intro a b hab
  simpa [roundLe] using hab

/-- The schedule's round numbers are sorted ascending. -/
theorem generateSchedule_sorted_nums (players : List Player) (config : Config)
    (existing : List Round) (fromRound : Nat) (g : Rng) :
    List.Pairwise (· ≤ ·)
      ((generateSchedule players config existing fromRound g).map (·.roundNumber)) := by
  simp only [generateSchedule]
  exact List.Pairwise.map _ (fun a b h => h) (sortBy_roundLe_sorted _)

/-- The schedule's round numbers are, up to order, the preserved numbers
followed by the not-yet-held candidate numbers. -/
theorem generateSchedule_map_num_perm (players : List Player) (config : Config)
    (existing : List Round) (fromRound : Nat) (g : Rng) :
    ((generateSchedule players config existing fromRound g).map (·.roundNumber)).Perm
      ((existing.filter (schedCond fromRound)).map (·.roundNumber) ++
        (List.range' fromRound (config.rounds + 1 - fromRound)).filter
          (fun n => !((existing.filter (schedCond fromRound)).any
            (fun r => r.roundNumber == n)))) := by
  simp only [generateSchedule]
  refine ((sortBy_perm _ _).map _).trans ?_
  rw [List.map_append, genLoop_map_num]
  simp only [List.map_nil, List.nil_append]
  refine List.Perm.append ((sortBy_perm _ _).map _) ?_
  have hany : ∀ n, ((sortBy roundLe (existing.filter (schedCond fromRound))).any
      (fun r => r.roundNumber == n)) =
      ((existing.filter (schedCond fromRound)).any (fun r => r.roundNumber == n)) :=
    fun n => perm_any (sortBy_perm _ _) _
  have heq := List.filter_congr
    (l := List.range' fromRound (config.rounds + 1 - fromRound))
    (fun x _ => by rw [hany x] :
      ∀ x ∈ List.range' fromRound (config.rounds + 1 - fromRound),
        (!((sortBy roundLe (existing.filter (schedCond fromRound))).any
          (fun r => r.roundNumber == x))) =
        (!((existing.filter (schedCond fromRound)).any (fun r => r.roundNumber == x))))
  rw [heq]

/-- Under the side conditions of the amended C5, the preserved numbers plus
the fresh candidate numbers are exactly `1..config.rounds`. -/
theorem fil_append_range_perm (config : Config) (existing : List Round)
    (fromRound : Nat)
    (h1 : ∀ r ∈ existing, 1 ≤ r.roundNumber ∧ r.roundNumber ≤ config.rounds)
    (h2 : (existing.map (·.roundNumber)).Nodup)
    (h3 : ∀ n, 1 ≤ n → n < fromRound → n ∈ existing.map (·.roundNumber))
    (h4 : 1 ≤ fromRound) :
    (((existing.filter (schedCond fromRound)).map (·.roundNumber)) ++
      (List.range' fromRound (config.rounds + 1 - fromRound)).filter
        (fun n => !((existing.filter (schedCond fromRound)).any
          (fun r => r.roundNumber == n)))).Perm
      (List.range' 1 config.rounds) := by
  have hany_iff : ∀ n, ((existing.filter (schedCond fromRound)).any
      (fun r => r.roundNumber == n)) = true ↔
      n ∈ (existing.filter (schedCond fromRound)).map (·.roundNumber) := by
    intro n
    rw [List.any_eq_true]
    constructor
    · rintro ⟨r, hr, hbeq⟩
      exact List.mem_map.mpr ⟨r, hr, by simpa using hbeq⟩
    · intro hmem
      obtain ⟨r, hr, heq⟩ := List.mem_map.mp hmem
      exact ⟨r, hr, by simp [heq]⟩
  have hnodupL : ((existing.filter (schedCond fromRound)).map (·.roundNumber)).Nodup := by
    have hsub : ((existing.filter (schedCond fromRound)).map (·.roundNumber)).Sublist
        (existing.map (·.roundNumber)) :=
      (List.filter_sublist existing).map _
    exact List.Nodup.sublist hsub h2
  have hnodupR : ((List.range' fromRound (config.rounds + 1 - fromRound)).filter
      (fun n => !((existing.filter (schedCond fromRound)).any
        (fun r => r.roundNumber == n)))).Nodup :=
    (List.nodup_range' _ _).filter _
  have hdisj : ((existing.filter (schedCond fromRound)).map (·.roundNumber)).Disjoint
      ((List.range' fromRound (config.rounds + 1 - fromRound)).filter
        (fun n => !((existing.filter (schedCond fromRound)).any
          (fun r => r.roundNumber == n)))) := by
    intro a ha hb
    have hpred := (List.mem_filter.mp hb).2
    rw [Bool.not_eq_eq_eq_not, Bool.not_true] at hpred
    rw [← hany_iff a] at ha
    rw [hpred] at ha
    exact absurd ha (by simp)
  rw [List.perm_ext_iff_of_nodup (List.Nodup.append hnodupL hnodupR hdisj)
    (List.nodup_range' _ _)]
  intro m
  rw [List.mem_append, List.mem_filter, List.mem_range'_1, List.mem_range'_1]
  constructor
  · rintro (hm | ⟨⟨hge, hlt⟩, _⟩)
    · obtain ⟨r, hr, rfl⟩ := List.mem_map.mp hm
      have := h1 r (List.mem_of_mem_filter hr)
      omega
    · omega
  · rintro ⟨h1m, hmr⟩
    by_cases hmem : m ∈ (existing.filter (schedCond fromRound)).map (·.roundNumber)
    · exact Or.inl hmem
    · right
      have hmge : fromRound ≤ m := by
        by_contra hge
        push_neg at hge
        obtain ⟨r, hrex, hrm⟩ := List.mem_map.mp (h3 m h1m hge)
        apply hmem
        refine List.mem_map.mpr ⟨r, List.mem_filter.mpr ⟨hrex, ?_⟩, hrm⟩
        simp [schedCond, hrm, hge]
      refine ⟨⟨hmge, by omega⟩, ?_⟩
      cases hx : (existing.filter (schedCond fromRound)).any (fun r => r.roundNumber == m)
      · simp
      · exact absurd ((hany_iff m).mp hx) hmem

/-- C5 (amended): provided every round number of the existing schedule lies
in `1..config.rounds`, the numbers are pairwise distinct, and every number
below the cutoff occurs in the existing schedule, the returned list has
exactly one round per number `1..config.rounds`, in ascending order, and
every preserved round (cutoff or completed) appears in it unchanged. -/
theorem generateSchedule_exact_rounds (players : List Player) (config : Config)
    (existing : List Round) (fromRound : Nat) (g : Rng)
    (h1 : ∀ r ∈ existing, 1 ≤ r.roundNumber ∧ r.roundNumber ≤ config.rounds)
    (h2 : (existing.map (·.roundNumber)).Nodup)
    (h3 : ∀ n, 1 ≤ n → n < fromRound → n ∈ existing.map (·.roundNumber))
    (h4 : 1 ≤ fromRound) :
    ((generateSchedule players config existing fromRound g).map (·.roundNumber) =
      List.range' 1 config.rounds) ∧
    ∀ r ∈ existing, schedCond fromRound r = true →
      r ∈ generateSchedule players config existing fromRound g := by
  refine ⟨?_, fun r hr hc =>
    preserved_mem_generateSchedule players config existing fromRound g r hr hc⟩
  have hperm := (generateSchedule_map_num_perm players config existing fromRound g).trans
    (fil_append_range_perm config existing fromRound h1 h2 h3 h4)
  exact List.eq_of_perm_of_sorted hperm
    (generateSchedule_sorted_nums players config existing fromRound g)
    (List.pairwise_le_range' 1 config.rounds)

/-- Witness for the amended C5 at a concrete input: an empty roster, two
rounds to schedule from scratch. -/
theorem generateSchedule_exact_rounds_witness :
    ((∀ r ∈ ([] : List Round), 1 ≤ r.roundNumber ∧ r.roundNumber ≤ 2) ∧
      ((([] : List Round)).map (·.roundNumber)).Nodup ∧
      (∀ n, 1 ≤ n → n < 1 → n ∈ (([] : List Round)).map (·.roundNumber)) ∧
      (1 : Nat) ≤ 1) ∧
    (generateSchedule [] ⟨1, 2, .americano⟩ [] 1 zeroRng).map (·.roundNumber) =
      List.range' 1 (2 : Nat) :=
  ⟨⟨by decide, by decide, by (intro n hn1 hn2; exact absurd hn2 (by omega)), by decide⟩,
    (generateSchedule_exact_rounds [] ⟨1, 2, .americano⟩ [] 1 zeroRng
      (by decide) (by decide) (by (intro n hn1 hn2; exact absurd hn2 (by omega)))
      (by decide)).1⟩

end Gaspadel
